import Mathlib

/-!
# Verification of the langgraph example repository against its specification

Shallow embedding of the repository's client-side example code
(`src/examples/streaming-tokens.ipynb`, `src/unnamed/part_000`) and of the
execution/checkpoint engine described by the specification.  The engine
implementation is not part of the repository (the notebooks are client-side
usage demonstrations), so those parts are modelled from the specification
text and are marked as such in their doc comments.
-/

/-! ## Data model: messages and tool calls (from the notebook source) -/

/-- A tool call attached to an AI message, as in the notebook's message dicts:
`{'name': ..., 'args': ..., 'id': ...}`. -/
structure ToolCall where
  name : String
  args : String
  id : String
deriving DecidableEq, Repr

/-- A message, as in the notebook's message dicts: a role/type tag, textual
content, an optional list of tool calls, and an identity used by the
accumulate-with-identity reducer. -/
structure Msg where
  role : String
  content : String
  tool_calls : List ToolCall
  id : String
deriving DecidableEq, Repr

/-- The graph state from `streaming-tokens.ipynb`:
`class State(TypedDict): messages: Annotated[list, add_messages]`. -/
structure State where
  messages : List Msg
deriving DecidableEq, Repr

/-- The terminal marker: `langgraph.graph.END`, whose value is `"__end__"`
(the notebook's `should_continue` is annotated `Literal["__end__", "tools"]`). -/
def ENDMark : String := "__end__"

/-! ## `should_continue` (from `streaming-tokens.ipynb`)

```python
def should_continue(state: State) -> Literal["__end__", "tools"]:
    messages = state["messages"]
    last_message = messages[-1]
    if not last_message.tool_calls:
        return END
    else:
        return "tools"
```

`messages[-1]` raises `IndexError` on an empty list; that fallible indexing is
embedded with `Except`. -/

/-- The conditional router out of the `agent` node. -/
def should_continue (state : State) : Except String String :=
  match state.messages.getLast? with
  | none => .error "IndexError"
  | some last_message =>
    if last_message.tool_calls.isEmpty then .ok ENDMark else .ok "tools"

/-! ## `search` (from `streaming-tokens.ipynb`)

```python
@tool
def search(query: str):
    """Call to surf the web."""
    # This is a placeholder, but don't tell the LLM that...
    return ["Cloudy with a chance of hail."]
```
-/

/-- The placeholder search tool. -/
def search (query : String) : List String :=
  ["Cloudy with a chance of hail."]

/-- Modelled from the spec: the `ToolNode` wrapper "takes in a list of
messages containing an AIMessage with tool_calls, runs the tools, and returns
the output as ToolMessages"; the notebook builds it as `ToolNode([search])`,
so the single runnable tool is `search`, applied to the call's arguments. -/
def run_tool (tc : ToolCall) : Msg :=
  { role := "tool", content := String.join (search tc.args),
    tool_calls := [], id := tc.id }

/-! ## The accumulate-with-identity reducer (`add_messages`)

Modelled from the spec: the `add_messages` implementation lives in the
`langgraph` library, not in this repository (the notebook only imports it and
sketches it as list append "with more robust handling").  §4.2 of the spec
describes it: preserve original ordering, append items whose identity is new,
and replace in place items whose identity already exists. -/

/-- `true` iff some message in `acc` carries identity `i`. -/
def hasId (acc : List Msg) (i : String) : Bool :=
  acc.any (fun x => x.id = i)

/-- Replace, in place, every message of `acc` whose identity matches `m`. -/
def replaceById (acc : List Msg) (m : Msg) : List Msg :=
  acc.map (fun x => if x.id = m.id then m else x)

/-- Modelled from the spec: one step of identity-based accumulation — replace
in place when the identity exists, append otherwise. -/
def upsertMsg (acc : List Msg) (m : Msg) : List Msg :=
  if hasId acc m.id then replaceById acc m else acc ++ [m]

/-- Modelled from the spec: the accumulate-with-identity reducer for
message-like logs (`add_messages`), folding each incoming item into the
existing ordered sequence. -/
def add_messages (left right : List Msg) : List Msg :=
  right.foldl upsertMsg left

/-! ## The Reducer Registry merge (spec §4.2) -/

/-- Modelled from the spec: `merge(old_state, partial_update) -> new_state`
over keyed state — for every key present in the update, apply that key's
registered reducer against `(old_state[key], partial_update[key])`; keys
absent from the update are left untouched.  The state maps every key to a
value; the update is defined only on the keys it carries. -/
def merge (reducers : String → α → α → α) (old : String → α)
    (upd : String → Option α) : String → α :=
  fun k =>
    match upd k with
    | some v => reducers k (old k) v
    | none => old k

/-! ## The execution/checkpoint engine (spec §3, §4.3, §4.4, §4.5)

Modelled from the spec: the engine implementation is not part of this
repository (the notebooks call a hosted graph through the SDK), so the
state machine of §4.4, the Checkpointer contract of §4.3 and the Event
Stream Multiplexer of §4.5 are embedded from the specification text.
The engine is generic in the state type `σ` and the partial-update type
`υ`, with the Reducer Registry abstracted as a merge function `σ → υ → σ`;
a node is an opaque executable `σ → NodeOutput υ` that either returns a
partial update or fails, and may emit a stream of tokens while running. -/

/-- Modelled from the spec: what one node execution yields — the tokens it
emitted, in production order, and its partial state update or error. -/
structure NodeOutput (υ : Type) where
  tokens : List String
  result : Except String υ

/-- Modelled from the spec: an immutable directed graph of named nodes with
static edges and conditional edges (routers `State -> node_name`), plus a
declared entry node.  Node declaration order is the engine's stable merge
order. -/
structure Graph (σ υ : Type) where
  nodes : List (String × (σ → NodeOutput υ))
  staticEdges : List (String × String)
  condRouters : List (String × (σ → String))
  entry : String

/-- Modelled from the spec: an immutable checkpoint snapshot
`{step_index, state, next_nodes_to_run, written_by_node}` (the thread id is
implicit: a thread is embedded as its ordered checkpoint log). -/
structure Checkpoint (σ : Type) where
  step_index : Nat
  state : σ
  next_nodes_to_run : List String
  written_by_node : Option String

/-- Modelled from the spec: run status state machine
`PENDING → RUNNING → {INTERRUPTED, SUCCEEDED, FAILED}`; a failure carries the
node the error is attributed to. -/
inductive RunStatus where
  | PENDING
  | RUNNING
  | INTERRUPTED
  | SUCCEEDED
  | FAILED (node : String)
deriving DecidableEq, Repr

/-- Modelled from the spec: the externally consumable events (`state_delta`
events are not needed by the claims under study and are omitted). -/
inductive Event where
  | node_started (node : String)
  | stream_token (node : String) (tok : String)
  | node_ended (node : String)
deriving DecidableEq, Repr

/-- The node a delivered event is attributed to. -/
def Event.node : Event → String
  | .node_started n => n
  | .stream_token n _ => n
  | .node_ended n => n

/-- Modelled from the spec: the events the Multiplexer delivers for one node
execution — `node_started`, then the node's tokens in production order, then
`node_ended`. -/
def nodeBlock (n : String) (toks : List String) : List Event :=
  Event.node_started n :: toks.map (fun t => Event.stream_token n t)
    ++ [Event.node_ended n]

/-- Modelled from the spec: all edges out of node `n`, evaluated against
state `s` — static edges always fire, conditional edges fire the node their
router returns on `s`. -/
def outgoing (g : Graph σ υ) (n : String) (s : σ) : List String :=
  (g.staticEdges.filter (fun e => e.1 = n)).map (fun e => e.2)
    ++ (g.condRouters.filter (fun c => c.1 = n)).map (fun c => c.2 s)

/-- Modelled from the spec: `next_nodes_to_run`, computed by evaluating
every outgoing edge of the nodes just run against the post-merge state. -/
def nextNodes (g : Graph σ υ) (ran : List String) (s : σ) : List String :=
  ran.flatMap (fun n => outgoing g n s)

/-- Modelled from the spec: execute every node of the frontier against the
same pre-step state, in the engine's stable order (declaration order of the
nodes that ran). -/
def execFrontier (g : Graph σ υ) (frontier : List String) (s : σ) :
    List (String × NodeOutput υ) :=
  (g.nodes.filter (fun nd => frontier.contains nd.1)).map
    (fun nd => (nd.1, nd.2 s))

/-- The first failed node of a step's results, if any. -/
def firstFailure : List (String × NodeOutput υ) → Option String
  | [] => none
  | (n, out) :: rest =>
    match out.result with
    | .error _ => some n
    | .ok _ => firstFailure rest

/-- Modelled from the spec: feed all partial updates of the step, in stable
order, through the Reducer Registry against the pre-step state. -/
def mergeAll (mergeFn : σ → υ → σ) (s : σ)
    (results : List (String × NodeOutput υ)) : σ :=
  results.foldl
    (fun acc r =>
      match r.2.result with
      | .ok u => mergeFn acc u
      | .error _ => acc) s

/-- Modelled from the spec: the `written_by_node` tag of a step's checkpoint —
the node that ran, or a special marker if multiple did. -/
def writtenBy : List String → Option String
  | [n] => some n
  | _ => some "__multiple__"

/-- Modelled from the spec: one superstep of the engine loop (§4.4 steps 1-8)
against a thread's checkpoint log.  Returns the new log, the
`(node, its tokens)` trace of the node executions that happened, the events
delivered for them, and `some status` when the run halts (`none` means loop).
The frontier is the latest checkpoint's `next_nodes_to_run`; if it meets
`interrupt_before` the engine halts before executing anything; a node failure
commits no checkpoint and fails the run attributed to the failing node;
otherwise the merged state is persisted as a new checkpoint, then
`interrupt_after` and termination (all next nodes are `END`) are checked. -/
def superstep (g : Graph σ υ) (mergeFn : σ → υ → σ) (ib ia : List String)
    (thread : List (Checkpoint σ)) :
    List (Checkpoint σ) × List (String × List String) × List Event ×
      Option RunStatus :=
  match thread.getLast? with
  | none => (thread, [], [], some (.FAILED "__no_checkpoint__"))
  | some cp =>
    let frontier := cp.next_nodes_to_run
    if frontier.any (fun n => ib.contains n) then
      (thread, [], [], some .INTERRUPTED)
    else
      let results := execFrontier g frontier cp.state
      let trace := results.map (fun r => (r.1, r.2.tokens))
      let events := results.flatMap (fun r => nodeBlock r.1 r.2.tokens)
      match firstFailure results with
      | some n => (thread, trace, events, some (.FAILED n))
      | none =>
        let newState := mergeAll mergeFn cp.state results
        let ran := results.map (fun r => r.1)
        let nexts := nextNodes g ran newState
        let cp' : Checkpoint σ :=
          ⟨cp.step_index + 1, newState, nexts, writtenBy ran⟩
        let thread' := thread ++ [cp']
        if ran.any (fun n => ia.contains n) then
          (thread', trace, events, some .INTERRUPTED)
        else if nexts.all (fun n => n = ENDMark) then
          (thread', trace, events, some .SUCCEEDED)
        else
          (thread', trace, events, none)

/-- Modelled from the spec: the engine loop — iterate supersteps until the
run halts, accumulating the execution trace and the delivered event stream.
`fuel` bounds the iteration count (looping termination is a caller concern);
an exhausted budget reports the still-`RUNNING` status. -/
def runLoop (g : Graph σ υ) (mergeFn : σ → υ → σ) (ib ia : List String) :
    Nat → List (Checkpoint σ) → List (String × List String) → List Event →
      List (Checkpoint σ) × List (String × List String) × List Event ×
        RunStatus
  | 0, thread, trace, events => (thread, trace, events, .RUNNING)
  | fuel + 1, thread, trace, events =>
    match superstep g mergeFn ib ia thread with
    | (t', tr, ev, some st) => (t', trace ++ tr, events ++ ev, st)
    | (t', tr, ev, none) =>
      runLoop g mergeFn ib ia fuel t' (trace ++ tr) (events ++ ev)

/-- Modelled from the spec: the checkpoint a fresh thread starts from — the
caller's input at step 0, with the entry node as the first frontier. -/
def initialCheckpoint (g : Graph σ υ) (input : σ) : Checkpoint σ :=
  ⟨0, input, [g.entry], none⟩

/-- Modelled from the spec: the Checkpointer's
`put_as_node(thread_id, partial_state, as_node)` — merge the update into the
latest checkpoint's state via the Reducer Registry, tag the result with
`written_by_node = as_node`, store it as a new checkpoint without executing
any node, and return the new step index.  Its `next_nodes_to_run` are the
outgoing edges of `as_node` evaluated against the edited state, so the next
run resumes as if that node had just executed. -/
def put_as_node (g : Graph σ υ) (mergeFn : σ → υ → σ)
    (thread : List (Checkpoint σ)) (upd : υ) (asNode : String) :
    Except String (List (Checkpoint σ) × Nat) :=
  match thread.getLast? with
  | none => .error "NotFound"
  | some cp =>
    let newState := mergeFn cp.state upd
    let cp' : Checkpoint σ :=
      ⟨cp.step_index + 1, newState, nextNodes g [asNode] newState,
        some asNode⟩
    .ok (thread ++ [cp'], cp'.step_index)

/-- `true` iff consecutive checkpoints of the log have `step_index` growing
by exactly one (in particular, strictly increasing). -/
def stepsOk : List (Checkpoint σ) → Bool
  | [] => true
  | [_] => true
  | a :: b :: rest => decide (b.step_index = a.step_index + 1) && stepsOk (b :: rest)

/-! ## Helper lemmas and concrete fixtures -/

/-- A user message as in the notebook input. -/
def userMsg : Msg :=
  { role := "user", content := "what is the weather in sf", tool_calls := [],
    id := "u1" }

/-- The first scripted AI response: empty content, one `search` tool call. -/
def aiToolCallMsg : Msg :=
  { role := "ai", content := "",
    tool_calls := [⟨"search", "weather in San Francisco", "call1"⟩],
    id := "a1" }

/-! ## C10 -/

/-- C10: the search tool is a constant function — for every pair of query
strings its output is the same singleton list
`["Cloudy with a chance of hail."]`, so any two runs of the tools node over
states requesting this tool produce identical tool output. -/
theorem search_is_constant :
    (∀ q1 q2 : String, search q1 = search q2) ∧
    (∀ q : String, search q = ["Cloudy with a chance of hail."]) ∧
    (∀ tc1 tc2 : ToolCall, (run_tool tc1).content = (run_tool tc2).content) :=
  ⟨fun _ _ => rfl, fun _ => rfl, fun _ _ => rfl⟩

/-! ## C4 -/

/-- C4: on every state with a non-empty messages list, the conditional router
out of the agent node returns `"tools"` exactly when the last message carries
at least one tool call and the terminal marker `"__end__"` when it carries
none; any successful result is one of those two names. -/
theorem should_continue_routes (state : State) (h : state.messages ≠ []) :
    (∀ last, state.messages.getLast? = some last →
      (last.tool_calls ≠ [] → should_continue state = .ok "tools") ∧
      (last.tool_calls = [] → should_continue state = .ok ENDMark)) ∧
    (∀ r, should_continue state = .ok r → r = "tools" ∨ r = ENDMark) := by
  refine ⟨fun last hlast => ?_, fun r hr => ?_⟩
  · constructor
    · intro hcalls
      simp [should_continue, hlast, List.isEmpty_iff, hcalls]
    · intro hcalls
      simp [should_continue, hlast, List.isEmpty_iff, hcalls]
  · unfold should_continue at hr
    rcases hlast : state.messages.getLast? with _ | last
    · simp [hlast] at hr
    · rw [hlast] at hr
      by_cases hc : last.tool_calls.isEmpty
      · right; simp [hc] at hr; exact hr.symm
      · left; simp [hc] at hr; exact hr.symm

/-- Witness for C4 at a concrete state whose last message has a tool call. -/
theorem should_continue_routes_witness :
    should_continue ⟨[userMsg, aiToolCallMsg]⟩ = .ok "tools" :=
  ((should_continue_routes ⟨[userMsg, aiToolCallMsg]⟩ (by decide)).1
    aiToolCallMsg (by decide)).1 (by decide)

/-! ## C9 -/

/-- C9: the router is well-defined only when the messages list is non-empty:
on the empty-messages state it fails with the index error (the sole possible
error), and on every non-empty state it succeeds with one of exactly the two
values `"__end__"` and `"tools"`. -/
theorem should_continue_partiality (state : State) :
    (state.messages = [] → should_continue state = .error "IndexError") ∧
    (state.messages ≠ [] →
      should_continue state = .ok ENDMark ∨
        should_continue state = .ok "tools") := by
  constructor
  · intro h
    simp [should_continue, h]
  · intro h
    rcases hlast : state.messages.getLast? with _ | last
    · exact absurd (List.getLast?_eq_none_iff.mp hlast) h
    · by_cases hc : last.tool_calls.isEmpty
      · left; simp [should_continue, hlast, hc]
      · right; simp [should_continue, hlast, hc]

/-- Witness for C9: the empty state errs, a concrete non-empty state does
not. -/
theorem should_continue_partiality_witness :
    should_continue ⟨[]⟩ = .error "IndexError" ∧
    (should_continue ⟨[userMsg]⟩ = .ok ENDMark ∨
      should_continue ⟨[userMsg]⟩ = .ok "tools") :=
  ⟨(should_continue_partiality ⟨[]⟩).1 rfl,
   (should_continue_partiality ⟨[userMsg]⟩).2 (by decide)⟩

/-! ## C5 -/

/-- C5: `merge` applies, for exactly the keys present in the update, the
key's registered reducer to the old value and the update value, and maps
every key absent from the update to its old value unchanged. -/
theorem merge_applies_reducers {α : Type} (R : String → α → α → α)
    (old : String → α) (upd : String → Option α) (k : String) :
    (∀ v, upd k = some v → merge R old upd k = R k (old k) v) ∧
    (upd k = none → merge R old upd k = old k) := by
  constructor
  · intro v hv
    simp [merge, hv]
  · intro hv
    simp [merge, hv]

/-- Witness for C5 with a concrete sum reducer: the updated key combines, the
untouched key is unchanged. -/
theorem merge_applies_reducers_witness :
    merge (fun _ a b => a + b) (fun _ => (1 : Nat))
      (fun k => if k = "messages" then some 2 else none) "messages" = 3 ∧
    merge (fun _ a b => a + b) (fun _ => (1 : Nat))
      (fun k => if k = "messages" then some 2 else none) "other" = 1 :=
  ⟨(merge_applies_reducers (fun _ a b => a + b) (fun _ => (1 : Nat))
      (fun k => if k = "messages" then some 2 else none) "messages").1 2 rfl,
   (merge_applies_reducers (fun _ a b => a + b) (fun _ => (1 : Nat))
      (fun k => if k = "messages" then some 2 else none) "other").2 rfl⟩

/-! ## C3: idempotence of the accumulate-with-identity reducer -/

/-- The pointwise effect of upserting `m`: replace `x` when identities
match, keep it otherwise. -/
def applyOne (x m : Msg) : Msg :=
  if x.id = m.id then m else x

/-- The pointwise effect of upserting a whole update list in order. -/
def applyAll (rs : List Msg) (x : Msg) : Msg :=
  rs.foldl applyOne x

theorem replaceById_map (acc : List Msg) (m : Msg) :
    replaceById acc m = acc.map (fun x => applyOne x m) :=
  rfl

theorem applyOne_id (x m : Msg) : (applyOne x m).id = x.id := by
  unfold applyOne
  split
  · simp_all
  · rfl

theorem applyAll_id (rs : List Msg) (x : Msg) : (applyAll rs x).id = x.id := by
  induction rs generalizing x with
  | nil => rfl
  | cons m rest ih =>
    show (applyAll rest (applyOne x m)).id = x.id
    rw [ih, applyOne_id]

theorem hasId_replaceById (acc : List Msg) (m : Msg) (i : String) :
    hasId (replaceById acc m) i = hasId acc i := by
  induction acc with
  | nil => rfl
  | cons a rest ih =>
    simp only [replaceById, List.map_cons, hasId, List.any_cons] at *
    have ha : (if a.id = m.id then m else a).id = a.id := applyOne_id a m
    rw [ih, ha]

theorem hasId_upsertMsg_self (acc : List Msg) (m : Msg) :
    hasId (upsertMsg acc m) m.id = true := by
  unfold upsertMsg
  by_cases h : hasId acc m.id = true
  · simp only [h, if_true, hasId_replaceById]
  · simp only [h, if_false, Bool.false_eq_true]
    simp [hasId, List.any_append]

theorem hasId_upsertMsg_mono (acc : List Msg) (m : Msg) (i : String)
    (h : hasId acc i = true) : hasId (upsertMsg acc m) i = true := by
  unfold upsertMsg
  split
  · rw [hasId_replaceById]
    exact h
  · simp only [hasId, List.any_append] at *
    rw [h]
    rfl

theorem hasId_add_messages_mono (acc rs : List Msg) (i : String)
    (h : hasId acc i = true) : hasId (add_messages acc rs) i = true := by
  induction rs generalizing acc with
  | nil => exact h
  | cons m rest ih => exact ih (upsertMsg acc m) (hasId_upsertMsg_mono acc m i h)

theorem hasId_add_messages_of_mem (rs : List Msg) (m : Msg) :
    m ∈ rs → ∀ acc, hasId (add_messages acc rs) m.id = true := by
  induction rs with
  | nil => intro hm; cases hm
  | cons a rest ih =>
    intro hm acc
    rcases List.mem_cons.mp hm with h | h
    · subst h
      exact hasId_add_messages_mono (upsertMsg acc m) rest m.id
        (hasId_upsertMsg_self acc m)
    · exact ih h (upsertMsg acc a)

theorem add_messages_of_all_hasId (rs : List Msg) :
    ∀ acc, (∀ m ∈ rs, hasId acc m.id = true) →
      add_messages acc rs = acc.map (applyAll rs) := by
  induction rs with
  | nil =>
    intro acc _
    show acc = acc.map (fun x => x)
    simp
  | cons m rest ih =>
    intro acc h
    have hm : hasId acc m.id = true := h m (List.mem_cons_self m rest)
    have step1 : upsertMsg acc m = replaceById acc m := by
      unfold upsertMsg
      rw [if_pos hm]
    show add_messages (upsertMsg acc m) rest = acc.map (applyAll (m :: rest))
    rw [step1, ih (replaceById acc m)
      (fun m' hm' => by rw [hasId_replaceById]; exact h m' (List.mem_cons_of_mem m hm'))]
    rw [replaceById_map, List.map_map]
    rfl

theorem applyAll_eq_self_of_mem (rs : List Msg) :
    ∀ acc x, x ∈ add_messages acc rs → applyAll rs x = x := by
  induction rs using List.reverseRecOn with
  | nil => intro acc x _; rfl
  | append_singleton init m ih =>
    intro acc x hx
    have hfold : add_messages acc (init ++ [m]) =
        upsertMsg (add_messages acc init) m := by
      unfold add_messages
      rw [List.foldl_append]
      rfl
    have happ : applyAll (init ++ [m]) x = applyOne (applyAll init x) m := by
      unfold applyAll
      rw [List.foldl_append]
      rfl
    rw [hfold] at hx
    unfold upsertMsg at hx
    by_cases hz : hasId (add_messages acc init) m.id = true
    · rw [if_pos hz, replaceById_map] at hx
      rcases List.mem_map.mp hx with ⟨z, hzZ, hfz⟩
      by_cases hid : z.id = m.id
      · have hxm : x = m := by
          rw [← hfz]
          unfold applyOne
          rw [if_pos hid]
        subst hxm
        rw [happ]
        unfold applyOne
        rw [if_pos (by rw [applyAll_id])]
      · have hxz : x = z := by
          rw [← hfz]
          unfold applyOne
          rw [if_neg hid]
        subst hxz
        rcases hzZ with _
        rw [happ, ih acc x hzZ]
        unfold applyOne
        rw [if_neg hid]
    · rw [if_neg hz] at hx
      rcases List.mem_append.mp hx with hxa | hxm
      · have hxid : ¬ x.id = m.id := by
          intro he
          apply hz
          simp only [hasId, List.any_eq_true]
          exact ⟨x, hxa, by simp [he]⟩
        rw [happ, ih acc x hxa]
        unfold applyOne
        rw [if_neg hxid]
      · have hxm' : x = m := by simpa using hxm
        subst hxm'
        rw [happ]
        unfold applyOne
        rw [if_pos (by rw [applyAll_id])]

theorem add_messages_idem_core (left rs : List Msg) :
    add_messages (add_messages left rs) rs = add_messages left rs := by
  rw [add_messages_of_all_hasId rs (add_messages left rs)
    (fun m hm => hasId_add_messages_of_mem rs m hm left)]
  conv_rhs => rw [← List.map_id (add_messages left rs)]
  exact List.map_congr_left
    (fun x hx => applyAll_eq_self_of_mem rs left x hx)

/-- An edit of `userMsg` carrying the same identity but new content. -/
def userMsgEdit : Msg :=
  { role := "user", content := "what is the weather in nyc",
    tool_calls := [], id := "u1" }

/-- C3: the accumulate-with-identity reducer is idempotent — applying the
same update twice yields exactly the sequence one application yields (same
contents, hence same length); an item whose identity is new is appended after
the existing sequence, and an item whose identity already exists replaces the
matching item in place. -/
theorem add_messages_idempotent (left right : List Msg) :
    add_messages (add_messages left right) right = add_messages left right ∧
    (∀ m : Msg, hasId left m.id = false → add_messages left [m] = left ++ [m]) ∧
    (∀ m : Msg, hasId left m.id = true →
      add_messages left [m] = replaceById left m) := by
  refine ⟨add_messages_idem_core left right, fun m hm => ?_, fun m hm => ?_⟩
  · show upsertMsg left m = left ++ [m]
    unfold upsertMsg
    simp [hm]
  · show upsertMsg left m = replaceById left m
    unfold upsertMsg
    simp [hm]

/-- Witness for C3 at concrete inputs: a double application equals the
single one; a fresh identity appends; an existing identity replaces in
place. -/
theorem add_messages_idempotent_witness :
    add_messages (add_messages [userMsg] [aiToolCallMsg]) [aiToolCallMsg] =
      add_messages [userMsg] [aiToolCallMsg] ∧
    add_messages [userMsg] [aiToolCallMsg] = [userMsg] ++ [aiToolCallMsg] ∧
    add_messages [userMsg] [userMsgEdit] = replaceById [userMsg] userMsgEdit :=
  ⟨(add_messages_idempotent [userMsg] [aiToolCallMsg]).1,
   (add_messages_idempotent [userMsg] [aiToolCallMsg]).2.1 aiToolCallMsg
     (by decide),
   (add_messages_idempotent [userMsg] [userMsgEdit]).2.2 userMsgEdit
     (by decide)⟩

/-! ## Engine fixtures: concrete graphs for the scenario claims -/

/-- Plain list-append merge, for string-log states. -/
def appendMerge : List String → List String → List String :=
  fun a b => a ++ b

/-- The spec's `A → B → END` interrupt-correctness graph. -/
def graphAB : Graph (List String) (List String) :=
  { nodes := [("A", fun _ => ⟨[], .ok ["A-output"]⟩),
              ("B", fun _ => ⟨[], .ok ["B-output"]⟩)],
    staticEdges := [("A", "B"), ("B", ENDMark)],
    condRouters := [],
    entry := "A" }

/-- The spec's failure-atomicity scenario: `A` and `B` run concurrently in
the same frontier and `B` raises. -/
def graphFail : Graph (List String) (List String) :=
  { nodes := [("A", fun _ => ⟨[], .ok ["A-output"]⟩),
              ("B", fun _ => ⟨[], .error "boom"⟩)],
    staticEdges := [("A", ENDMark), ("B", ENDMark)],
    condRouters := [],
    entry := "A" }

/-- A static-edges-only graph whose frontier is not always a singleton:
`A` fans out to `B` and `C`, which both terminate. -/
def graphDiamond : Graph (List String) (List String) :=
  { nodes := [("A", fun _ => ⟨[], .ok ["a"]⟩),
              ("B", fun _ => ⟨[], .ok ["b"]⟩),
              ("C", fun _ => ⟨[], .ok ["c"]⟩)],
    staticEdges := [("A", "B"), ("A", "C"), ("B", ENDMark), ("C", ENDMark)],
    condRouters := [],
    entry := "A" }

/-! ## Engine helper lemmas -/

theorem runLoop_succ {σ υ : Type} (g : Graph σ υ) (mergeFn : σ → υ → σ)
    (ib ia : List String) (fuel : Nat) (thread : List (Checkpoint σ))
    (trace : List (String × List String)) (events : List Event) :
    runLoop g mergeFn ib ia (fuel + 1) thread trace events =
      (match superstep g mergeFn ib ia thread with
       | (t', tr, ev, some st) => (t', trace ++ tr, events ++ ev, st)
       | (t', tr, ev, none) =>
         runLoop g mergeFn ib ia fuel t' (trace ++ tr) (events ++ ev)) :=
  rfl

theorem runLoop_halt {σ υ : Type} (g : Graph σ υ) (mergeFn : σ → υ → σ)
    (ib ia : List String) (fuel : Nat) (thread t' : List (Checkpoint σ))
    (trace tr : List (String × List String)) (events ev : List Event)
    (st : RunStatus)
    (hs : superstep g mergeFn ib ia thread = (t', tr, ev, some st)) :
    runLoop g mergeFn ib ia (fuel + 1) thread trace events =
      (t', trace ++ tr, events ++ ev, st) := by
  rw [runLoop_succ, hs]

theorem runLoop_go {σ υ : Type} (g : Graph σ υ) (mergeFn : σ → υ → σ)
    (ib ia : List String) (fuel : Nat) (thread t' : List (Checkpoint σ))
    (trace tr : List (String × List String)) (events ev : List Event)
    (hs : superstep g mergeFn ib ia thread = (t', tr, ev, none)) :
    runLoop g mergeFn ib ia (fuel + 1) thread trace events =
      runLoop g mergeFn ib ia fuel t' (trace ++ tr) (events ++ ev) := by
  rw [runLoop_succ, hs]

theorem superstep_interrupt_before {σ υ : Type} (g : Graph σ υ)
    (mergeFn : σ → υ → σ) (ib ia : List String)
    (thread : List (Checkpoint σ)) (cp : Checkpoint σ)
    (hlast : thread.getLast? = some cp)
    (hint : cp.next_nodes_to_run.any (fun n => ib.contains n) = true) :
    superstep g mergeFn ib ia thread =
      (thread, [], [], some RunStatus.INTERRUPTED) := by
  unfold superstep
  simp only [hlast]
  rw [if_pos hint]

theorem superstep_node_failure {σ υ : Type} (g : Graph σ υ)
    (mergeFn : σ → υ → σ) (ib ia : List String)
    (thread : List (Checkpoint σ)) (cp : Checkpoint σ) (n : String)
    (hlast : thread.getLast? = some cp)
    (hnoib : cp.next_nodes_to_run.any (fun x => ib.contains x) = false)
    (hfail : firstFailure (execFrontier g cp.next_nodes_to_run cp.state) =
      some n) :
    superstep g mergeFn ib ia thread =
      (thread,
       (execFrontier g cp.next_nodes_to_run cp.state).map
         (fun r => (r.1, r.2.tokens)),
       (execFrontier g cp.next_nodes_to_run cp.state).flatMap
         (fun r => nodeBlock r.1 r.2.tokens),
       some (RunStatus.FAILED n)) := by
  unfold superstep
  simp only [hlast]
  rw [if_neg (by rw [hnoib]; simp)]
  simp only [hfail]

theorem superstep_commit {σ υ : Type} (g : Graph σ υ) (mergeFn : σ → υ → σ)
    (ib ia : List String) (thread : List (Checkpoint σ)) (cp : Checkpoint σ)
    (hlast : thread.getLast? = some cp)
    (hnoib : cp.next_nodes_to_run.any (fun x => ib.contains x) = false)
    (hok : firstFailure (execFrontier g cp.next_nodes_to_run cp.state) =
      none) :
    ∃ st, superstep g mergeFn ib ia thread =
      (thread ++ [⟨cp.step_index + 1,
          mergeAll mergeFn cp.state
            (execFrontier g cp.next_nodes_to_run cp.state),
          nextNodes g
            ((execFrontier g cp.next_nodes_to_run cp.state).map
              (fun r => r.1))
            (mergeAll mergeFn cp.state
              (execFrontier g cp.next_nodes_to_run cp.state)),
          writtenBy ((execFrontier g cp.next_nodes_to_run cp.state).map
            (fun r => r.1))⟩],
        (execFrontier g cp.next_nodes_to_run cp.state).map
          (fun r => (r.1, r.2.tokens)),
        (execFrontier g cp.next_nodes_to_run cp.state).flatMap
          (fun r => nodeBlock r.1 r.2.tokens),
        st) := by
  unfold superstep
  simp only [hlast]
  rw [if_neg (by rw [hnoib]; simp)]
  simp only [hok]
  split
  · exact ⟨_, rfl⟩
  · split
    · exact ⟨_, rfl⟩
    · exact ⟨_, rfl⟩

theorem superstep_thread_cases {σ υ : Type} (g : Graph σ υ)
    (mergeFn : σ → υ → σ) (ib ia : List String)
    (thread : List (Checkpoint σ)) :
    (superstep g mergeFn ib ia thread).1 = thread ∨
    ∃ cp cp', thread.getLast? = some cp ∧
      (superstep g mergeFn ib ia thread).1 = thread ++ [cp'] ∧
      cp'.step_index = cp.step_index + 1 := by
  rcases hlast : thread.getLast? with _ | cp
  · left
    unfold superstep
    rw [hlast]
  · cases hib : cp.next_nodes_to_run.any (fun n => ib.contains n) with
    | true =>
      left
      rw [superstep_interrupt_before g mergeFn ib ia thread cp hlast hib]
    | false =>
      rcases hff : firstFailure (execFrontier g cp.next_nodes_to_run cp.state)
        with _ | n
      · obtain ⟨st, hst⟩ :=
          superstep_commit g mergeFn ib ia thread cp hlast hib hff
        right
        rw [hst]
        exact ⟨cp, ⟨cp.step_index + 1,
            mergeAll mergeFn cp.state
              (execFrontier g cp.next_nodes_to_run cp.state),
            nextNodes g
              ((execFrontier g cp.next_nodes_to_run cp.state).map
                (fun r => r.1))
              (mergeAll mergeFn cp.state
                (execFrontier g cp.next_nodes_to_run cp.state)),
            writtenBy ((execFrontier g cp.next_nodes_to_run cp.state).map
              (fun r => r.1))⟩,
          rfl, rfl, rfl⟩
      · left
        rw [superstep_node_failure g mergeFn ib ia thread cp n hlast hib hff]

theorem flatMap_tokens {υ : Type} (rs : List (String × NodeOutput υ)) :
    rs.flatMap (fun r => nodeBlock r.1 r.2.tokens) =
      (rs.map (fun r => (r.1, r.2.tokens))).flatMap
        (fun r => nodeBlock r.1 r.2) := by
  induction rs with
  | nil => rfl
  | cons r rest ih => simp only [List.flatMap_cons, List.map_cons, ih]

theorem superstep_events_blocks {σ υ : Type} (g : Graph σ υ)
    (mergeFn : σ → υ → σ) (ib ia : List String)
    (thread : List (Checkpoint σ)) :
    (superstep g mergeFn ib ia thread).2.2.1 =
      ((superstep g mergeFn ib ia thread).2.1).flatMap
        (fun r => nodeBlock r.1 r.2) := by
  rcases hlast : thread.getLast? with _ | cp
  · unfold superstep
    rw [hlast]
    rfl
  · cases hib : cp.next_nodes_to_run.any (fun n => ib.contains n) with
    | true =>
      rw [superstep_interrupt_before g mergeFn ib ia thread cp hlast hib]
      rfl
    | false =>
      rcases hff : firstFailure (execFrontier g cp.next_nodes_to_run cp.state)
        with _ | n
      · obtain ⟨st, hst⟩ :=
          superstep_commit g mergeFn ib ia thread cp hlast hib hff
        rw [hst]
        exact flatMap_tokens _
      · rw [superstep_node_failure g mergeFn ib ia thread cp n hlast hib hff]
        exact flatMap_tokens _

theorem runLoop_extends {σ υ : Type} (g : Graph σ υ) (mergeFn : σ → υ → σ)
    (ib ia : List String) :
    ∀ (fuel : Nat) (thread : List (Checkpoint σ))
      (trace : List (String × List String)) (events : List Event),
      ∃ rest,
        (runLoop g mergeFn ib ia fuel thread trace events).1 =
          thread ++ rest := by
  intro fuel
  induction fuel with
  | zero =>
    intro thread trace events
    exact ⟨[], by simp [runLoop]⟩
  | succ fuel ih =>
    intro thread trace events
    have hcases := superstep_thread_cases g mergeFn ib ia thread
    rcases hs : superstep g mergeFn ib ia thread with ⟨t', tr, ev, st⟩
    rw [hs] at hcases
    have ht' : t' = thread ∨ ∃ cp', t' = thread ++ [cp'] := by
      rcases hcases with h | ⟨cp, cp', _, h, _⟩
      · exact Or.inl h
      · exact Or.inr ⟨cp', h⟩
    cases st with
    | none =>
      rw [runLoop_go g mergeFn ib ia fuel thread t' trace tr events ev hs]
      obtain ⟨rest, hrest⟩ := ih t' (trace ++ tr) (events ++ ev)
      rcases ht' with h | ⟨cp', h⟩
      · exact ⟨rest, by rw [hrest, h]⟩
      · exact ⟨[cp'] ++ rest,
          by rw [hrest, h, List.append_assoc]⟩
    | some st =>
      rw [runLoop_halt g mergeFn ib ia fuel thread t' trace tr events ev st hs]
      rcases ht' with h | ⟨cp', h⟩
      · exact ⟨[], by simp [h]⟩
      · exact ⟨[cp'], h⟩

theorem stepsOk_append_one {σ : Type} :
    ∀ (thread : List (Checkpoint σ)) (cp cp' : Checkpoint σ),
      thread.getLast? = some cp → cp'.step_index = cp.step_index + 1 →
      stepsOk thread = true → stepsOk (thread ++ [cp']) = true := by
  intro thread
  induction thread with
  | nil =>
    intro cp cp' hlast _ _
    cases hlast
  | cons a rest ih =>
    intro cp cp' hlast hstep hok
    cases rest with
    | nil =>
      have ha : a = cp := by simpa using hlast
      subst ha
      simp [stepsOk, hstep]
    | cons b rest2 =>
      have hlast2 : (b :: rest2).getLast? = some cp := by
        rw [← List.getLast?_cons_cons]
        exact hlast
      have hok2 : (decide (b.step_index = a.step_index + 1) &&
          stepsOk (b :: rest2)) = true := hok
      rw [Bool.and_eq_true] at hok2
      have := ih cp cp' hlast2 hstep hok2.2
      show (decide (b.step_index = a.step_index + 1) &&
        stepsOk ((b :: rest2) ++ [cp'])) = true
      rw [Bool.and_eq_true]
      exact ⟨hok2.1, this⟩

theorem runLoop_stepsOk {σ υ : Type} (g : Graph σ υ) (mergeFn : σ → υ → σ)
    (ib ia : List String) :
    ∀ (fuel : Nat) (thread : List (Checkpoint σ))
      (trace : List (String × List String)) (events : List Event),
      stepsOk thread = true →
      stepsOk (runLoop g mergeFn ib ia fuel thread trace events).1 = true := by
  intro fuel
  induction fuel with
  | zero =>
    intro thread trace events hok
    simpa [runLoop] using hok
  | succ fuel ih =>
    intro thread trace events hok
    have hcases := superstep_thread_cases g mergeFn ib ia thread
    rcases hs : superstep g mergeFn ib ia thread with ⟨t', tr, ev, st⟩
    rw [hs] at hcases
    have hok' : stepsOk t' = true := by
      rcases hcases with h | ⟨cp, cp', hlast, h, hstep⟩
      · rw [show t' = thread from h]
        exact hok
      · rw [show t' = thread ++ [cp'] from h]
        exact stepsOk_append_one thread cp cp' hlast hstep hok
    cases st with
    | none =>
      rw [runLoop_go g mergeFn ib ia fuel thread t' trace tr events ev hs]
      exact ih t' (trace ++ tr) (events ++ ev) hok'
    | some st =>
      rw [runLoop_halt g mergeFn ib ia fuel thread t' trace tr events ev st hs]
      exact hok'

theorem runLoop_events_blocks {σ υ : Type} (g : Graph σ υ)
    (mergeFn : σ → υ → σ) (ib ia : List String) :
    ∀ (fuel : Nat) (thread : List (Checkpoint σ))
      (trace : List (String × List String)) (events : List Event),
      events = trace.flatMap (fun r => nodeBlock r.1 r.2) →
      (runLoop g mergeFn ib ia fuel thread trace events).2.2.1 =
        ((runLoop g mergeFn ib ia fuel thread trace events).2.1).flatMap
          (fun r => nodeBlock r.1 r.2) := by
  intro fuel
  induction fuel with
  | zero =>
    intro thread trace events h
    simpa [runLoop] using h
  | succ fuel ih =>
    intro thread trace events h
    have hblocks := superstep_events_blocks g mergeFn ib ia thread
    rcases hs : superstep g mergeFn ib ia thread with ⟨t', tr, ev, st⟩
    rw [hs] at hblocks
    have hev : ev = tr.flatMap (fun r => nodeBlock r.1 r.2) := hblocks
    have hinv : events ++ ev = (trace ++ tr).flatMap
        (fun r => nodeBlock r.1 r.2) := by
      rw [h, hev, List.flatMap_append]
    cases st with
    | none =>
      rw [runLoop_go g mergeFn ib ia fuel thread t' trace tr events ev hs]
      exact ih t' (trace ++ tr) (events ++ ev) hinv
    | some st =>
      rw [runLoop_halt g mergeFn ib ia fuel thread t' trace tr events ev st hs]
      exact hinv

/-! ## Per-node event views (spec §4.5) -/

/-- The subsequence of delivered events attributed to node `n`, in delivery
order. -/
def eventsOf (n : String) (evs : List Event) : List Event :=
  evs.filter (fun e => e.node = n)

/-- The payloads of node `n`'s `stream_token` events, in delivery order. -/
def tokenPayloads (n : String) (evs : List Event) : List String :=
  evs.filterMap (fun e =>
    match e with
    | Event.stream_token m t => if m = n then some t else none
    | _ => none)

theorem eventsOf_append (n : String) (l1 l2 : List Event) :
    eventsOf n (l1 ++ l2) = eventsOf n l1 ++ eventsOf n l2 :=
  List.filter_append _ _

theorem node_of_mem_nodeBlock (m : String) (toks : List String) (e : Event)
    (he : e ∈ nodeBlock m toks) : Event.node e = m := by
  simp only [nodeBlock, List.mem_cons, List.mem_append, List.mem_map,
    List.mem_singleton] at he
  rcases he with (h1 | ⟨t, _, h2⟩) | h3 | h4
  · rw [h1]; rfl
  · rw [← h2]; rfl
  · rw [h3]; rfl
  · cases h4

theorem eventsOf_nodeBlock (n m : String) (toks : List String) :
    eventsOf n (nodeBlock m toks) =
      if m = n then nodeBlock m toks else [] := by
  by_cases h : m = n
  · rw [if_pos h]
    apply List.filter_eq_self.mpr
    intro e he
    simp [node_of_mem_nodeBlock m toks e he, h]
  · rw [if_neg h]
    apply List.filter_eq_nil_iff.mpr
    intro e he
    simp [node_of_mem_nodeBlock m toks e he, h]

theorem eventsOf_trace_blocks (n : String)
    (rs : List (String × List String)) :
    eventsOf n (rs.flatMap (fun r => nodeBlock r.1 r.2)) =
      (rs.filter (fun r => r.1 = n)).flatMap (fun r => nodeBlock r.1 r.2) := by
  induction rs with
  | nil => rfl
  | cons r rest ih =>
    rw [List.flatMap_cons, eventsOf_append, ih, List.filter_cons]
    by_cases h : r.1 = n
    · simp [h, eventsOf_nodeBlock]
    · simp [h, eventsOf_nodeBlock]

/-! ## The end-to-end agent/tools scenario (streaming-tokens notebook) -/

/-- The token stream of the final model answer, in production order (the
notebook prints `The| weather| in| San| Francisco| is| currently| cloudy|
with| a| chance| of| hail|.|`). -/
def weatherTokens : List String :=
  ["The", " weather", " in", " San", " Francisco", " is", " currently",
   " cloudy", " with", " a", " chance", " of", " hail", "."]

/-- The final AI answer, whose content is the concatenation of its streamed
tokens. -/
def aiFinalMsg : Msg :=
  { role := "ai", content := String.join weatherTokens, tool_calls := [],
    id := "a2" }

/-- Modelled from the spec: the LLM behind `call_model` is an external
collaborator ("a node is an opaque function"); this deterministic stand-in
scripts the notebook run — on a fresh conversation it requests the `search`
tool (empty streamed content), and once a tool result is present it streams
the final weather answer token by token. -/
def call_model (msgs : List Msg) : NodeOutput (List Msg) :=
  if msgs.any (fun m => m.role = "tool") then
    ⟨weatherTokens, .ok [aiFinalMsg]⟩
  else
    ⟨[], .ok [aiToolCallMsg]⟩

/-- Modelled from the spec: the `tools` node (`ToolNode([search])`) — read
the last message's tool calls, run each requested tool, return the outputs
as tool messages. -/
def tool_node (msgs : List Msg) : NodeOutput (List Msg) :=
  match msgs.getLast? with
  | none => ⟨[], .error "IndexError"⟩
  | some last => ⟨[], .ok (last.tool_calls.map run_tool)⟩

/-- The conditional edge out of `agent`, total over states as the engine
requires: `should_continue`, with the impossible empty-state error routed to
the terminal marker. -/
def route_from_agent (msgs : List Msg) : String :=
  match should_continue ⟨msgs⟩ with
  | .ok n => n
  | .error _ => ENDMark

/-- The notebook's compiled graph: nodes `agent` and `tools`, entry `agent`,
a conditional edge out of `agent` via `should_continue`, and a static edge
`tools → agent`. -/
def workflow : Graph (List Msg) (List Msg) :=
  { nodes := [("agent", call_model), ("tools", tool_node)],
    staticEdges := [("tools", "agent")],
    condRouters := [("agent", route_from_agent)],
    entry := "agent" }

/-- The tool message the tools node produces for the scripted tool call. -/
def toolResultMsg : Msg :=
  { role := "tool", content := "Cloudy with a chance of hail.",
    tool_calls := [], id := "call1" }

/-! ## C1 -/

/-- C1: when the computed frontier meets `interrupt_before`, the engine
halts with status `INTERRUPTED` before executing anything — the checkpoint
log, the execution trace and the event stream are unchanged, so the
previously written checkpoint remains the thread's latest resumable point.
Concretely, the `A → B → END` run with `interrupt_before = ["B"]` halts
`INTERRUPTED` with exactly one checkpoint committed by the run (A's output),
and `B` never executes. -/
theorem interrupt_before_halts {σ υ : Type} (g : Graph σ υ)
    (mergeFn : σ → υ → σ) (ib ia : List String) (fuel : Nat)
    (thread : List (Checkpoint σ)) (trace : List (String × List String))
    (events : List Event) (cp : Checkpoint σ)
    (hlast : thread.getLast? = some cp)
    (hint : cp.next_nodes_to_run.any (fun n => ib.contains n) = true) :
    runLoop g mergeFn ib ia (fuel + 1) thread trace events =
      (thread, trace, events, RunStatus.INTERRUPTED) ∧
    runLoop graphAB appendMerge ["B"] [] 10
        [initialCheckpoint graphAB []] [] [] =
      ([initialCheckpoint graphAB [], ⟨1, ["A-output"], ["B"], some "A"⟩],
       [("A", [])], nodeBlock "A" [], RunStatus.INTERRUPTED) ∧
    "B" ∉ ((runLoop graphAB appendMerge ["B"] [] 10
        [initialCheckpoint graphAB []] [] []).2.1).map (fun r => r.1) := by
  refine ⟨?_, rfl, by decide⟩
  rw [runLoop_halt g mergeFn ib ia fuel thread thread trace [] events []
    RunStatus.INTERRUPTED
    (superstep_interrupt_before g mergeFn ib ia thread cp hlast hint)]
  simp

/-- Witness for C1: a one-checkpoint thread whose frontier is `["B"]`, run
with `interrupt_before = ["B"]`, halts untouched. -/
theorem interrupt_before_halts_witness :
    runLoop graphAB appendMerge ["B"] [] 1 [⟨0, [], ["B"], none⟩] [] [] =
      ([⟨0, [], ["B"], none⟩], [], [], RunStatus.INTERRUPTED) :=
  (interrupt_before_halts graphAB appendMerge ["B"] [] 0
    [⟨0, [], ["B"], none⟩] [] [] ⟨0, [], ["B"], none⟩ rfl (by decide)).1

/-! ## C2 -/

/-- C2: on a thread with at least one checkpoint, `put_as_node` merges the
partial update into the latest checkpoint's state via the reducer, stores
the result as a new checkpoint tagged `written_by_node = as_node`, and
returns the new step index; it executes no node (its result does not depend
on the node executables at all); and the stored `next_nodes_to_run` — the
frontier the next run reads from the latest checkpoint — are exactly the
outgoing edges of `as_node` evaluated against the edited state, as if that
node had just executed. -/
theorem put_as_node_correct {σ υ : Type} (g : Graph σ υ)
    (mergeFn : σ → υ → σ) (thread : List (Checkpoint σ)) (upd : υ)
    (asNode : String) (cp : Checkpoint σ)
    (hlast : thread.getLast? = some cp) :
    put_as_node g mergeFn thread upd asNode =
      .ok (thread ++ [⟨cp.step_index + 1, mergeFn cp.state upd,
          nextNodes g [asNode] (mergeFn cp.state upd), some asNode⟩],
        cp.step_index + 1) ∧
    (∀ nodes2 : List (String × (σ → NodeOutput υ)),
      put_as_node { g with nodes := nodes2 } mergeFn thread upd asNode =
        put_as_node g mergeFn thread upd asNode) ∧
    (∀ t' i, put_as_node g mergeFn thread upd asNode = .ok (t', i) →
      t'.getLast? = some ⟨cp.step_index + 1, mergeFn cp.state upd,
        nextNodes g [asNode] (mergeFn cp.state upd), some asNode⟩ ∧
      i = cp.step_index + 1) := by
  have h1 : put_as_node g mergeFn thread upd asNode =
      .ok (thread ++ [⟨cp.step_index + 1, mergeFn cp.state upd,
          nextNodes g [asNode] (mergeFn cp.state upd), some asNode⟩],
        cp.step_index + 1) := by
    unfold put_as_node
    simp only [hlast]
  refine ⟨h1, fun nodes2 => rfl, fun t' i h => ?_⟩
  rw [h1] at h
  rcases h with ⟨⟩
  exact ⟨List.getLast?_concat thread, rfl⟩

/-- Witness for C2: injecting human input as node `B` on a one-checkpoint
thread of the `A → B → END` graph. -/
theorem put_as_node_correct_witness :
    put_as_node graphAB appendMerge [⟨0, [], ["B"], none⟩]
      ["human-input"] "B" =
    .ok ([⟨0, [], ["B"], none⟩, ⟨1, ["human-input"], [ENDMark], some "B"⟩],
      1) :=
  (put_as_node_correct graphAB appendMerge [⟨0, [], ["B"], none⟩]
    ["human-input"] "B" ⟨0, [], ["B"], none⟩ rfl).1

/-! ## C6 -/

/-- C6: when a frontier node fails, the step commits no checkpoint — the log
is unchanged, so the latest checkpoint is still the pre-step one and the
sibling nodes' partial updates are discarded rather than merged — and the
run halts `FAILED`, attributed to the failing node.  Concretely, with `A`
and `B` executing in one frontier and `B` raising, the log stays at the
pre-step checkpoint and the run fails attributed to `B`. -/
theorem node_failure_atomicity {σ υ : Type} (g : Graph σ υ)
    (mergeFn : σ → υ → σ) (ib ia : List String) (fuel : Nat)
    (thread : List (Checkpoint σ)) (trace : List (String × List String))
    (events : List Event) (cp : Checkpoint σ) (n : String)
    (hlast : thread.getLast? = some cp)
    (hnoib : cp.next_nodes_to_run.any (fun x => ib.contains x) = false)
    (hfail : firstFailure (execFrontier g cp.next_nodes_to_run cp.state) =
      some n) :
    (runLoop g mergeFn ib ia (fuel + 1) thread trace events).1 = thread ∧
    (runLoop g mergeFn ib ia (fuel + 1) thread trace events).2.2.2 =
      RunStatus.FAILED n ∧
    runLoop graphFail appendMerge [] [] 5
        [⟨0, [], ["A", "B"], none⟩] [] [] =
      ([⟨0, [], ["A", "B"], none⟩], [("A", []), ("B", [])],
       nodeBlock "A" [] ++ nodeBlock "B" [], RunStatus.FAILED "B") := by
  rw [runLoop_halt g mergeFn ib ia fuel thread thread trace _ events _
    (RunStatus.FAILED n)
    (superstep_node_failure g mergeFn ib ia thread cp n hlast hnoib hfail)]
  exact ⟨rfl, rfl, rfl⟩

/-- Witness for C6 at the concrete two-node frontier where `B` raises. -/
theorem node_failure_atomicity_witness :
    (runLoop graphFail appendMerge [] [] 1
      [⟨0, [], ["A", "B"], none⟩] [] []).1 = [⟨0, [], ["A", "B"], none⟩] ∧
    (runLoop graphFail appendMerge [] [] 1
      [⟨0, [], ["A", "B"], none⟩] [] []).2.2.2 = RunStatus.FAILED "B" :=
  ⟨(node_failure_atomicity graphFail appendMerge [] [] 0
      [⟨0, [], ["A", "B"], none⟩] [] [] ⟨0, [], ["A", "B"], none⟩ "B"
      rfl rfl rfl).1,
   (node_failure_atomicity graphFail appendMerge [] [] 0
      [⟨0, [], ["A", "B"], none⟩] [] [] ⟨0, [], ["A", "B"], none⟩ "B"
      rfl rfl rfl).2.1⟩

/-! ## C7 -/

/-- C7 counterexample: running the static-edges-only, no-interrupt diamond
graph (`A` fans out to `B` and `C`) to completion executes three nodes but
commits only two checkpoints beyond the initial one — one checkpoint per
superstep, not one per node executed — refuting the claimed count
`initial + one per node executed`. -/
theorem one_checkpoint_per_node_counterexample :
    graphDiamond.condRouters = [] ∧
    (runLoop graphDiamond appendMerge [] [] 10
        [initialCheckpoint graphDiamond []] [] []).2.2.2 =
      RunStatus.SUCCEEDED ∧
    ((runLoop graphDiamond appendMerge [] [] 10
        [initialCheckpoint graphDiamond []] [] []).2.1).length = 3 ∧
    ((runLoop graphDiamond appendMerge [] [] 10
        [initialCheckpoint graphDiamond []] [] []).1).length = 3 ∧
    ¬ ((runLoop graphDiamond appendMerge [] [] 10
        [initialCheckpoint graphDiamond []] [] []).1).length =
      1 + ((runLoop graphDiamond appendMerge [] [] 10
        [initialCheckpoint graphDiamond []] [] []).2.1).length :=
  ⟨rfl, rfl, rfl, rfl, by decide⟩

/-- C7 (amended): per thread the checkpoint log is append-only — a run only
extends the existing log, never mutating a stored checkpoint — and
`step_index` grows by exactly one at each committed checkpoint; every
superstep commits at most one new checkpoint, whose `step_index` is one
above the previous latest.  A completed run therefore yields one checkpoint
per superstep plus the initial checkpoint; this equals one per node executed
when every frontier is a singleton, as in the linear `A → B → END` run. -/
theorem checkpoint_log_invariants {σ υ : Type} (g : Graph σ υ)
    (mergeFn : σ → υ → σ) (ib ia : List String) (fuel : Nat)
    (thread : List (Checkpoint σ)) (trace : List (String × List String))
    (events : List Event) (hok : stepsOk thread = true) :
    (∃ rest, (runLoop g mergeFn ib ia fuel thread trace events).1 =
      thread ++ rest) ∧
    stepsOk (runLoop g mergeFn ib ia fuel thread trace events).1 = true ∧
    ((superstep g mergeFn ib ia thread).1 = thread ∨
      ∃ cp cp', thread.getLast? = some cp ∧
        (superstep g mergeFn ib ia thread).1 = thread ++ [cp'] ∧
        cp'.step_index = cp.step_index + 1) ∧
    runLoop graphAB appendMerge [] [] 10
        [initialCheckpoint graphAB []] [] [] =
      ([initialCheckpoint graphAB [], ⟨1, ["A-output"], ["B"], some "A"⟩,
        ⟨2, ["A-output", "B-output"], [ENDMark], some "B"⟩],
       [("A", []), ("B", [])],
       nodeBlock "A" [] ++ nodeBlock "B" [], RunStatus.SUCCEEDED) :=
  ⟨runLoop_extends g mergeFn ib ia fuel thread trace events,
   runLoop_stepsOk g mergeFn ib ia fuel thread trace events hok,
   superstep_thread_cases g mergeFn ib ia thread,
   rfl⟩

/-- Witness for C7 (amended) on the concrete completed `A → B → END` run. -/
theorem checkpoint_log_invariants_witness :
    stepsOk (runLoop graphAB appendMerge [] [] 10
      [initialCheckpoint graphAB []] [] []).1 = true :=
  (checkpoint_log_invariants graphAB appendMerge [] [] 10
    [initialCheckpoint graphAB []] [] [] rfl).2.1

/-! ## C8 -/

/-- C8: a run's delivered event stream is exactly the concatenation, in
execution order, of per-execution blocks
`node_started · stream_token* · node_ended`, with each block's tokens in the
order the node produced them; restricting the delivered stream to one node
yields exactly that node's blocks, so a node's tokens are never reordered
relative to its own started/ended pair.  In the end-to-end agent/tools
scenario the stream is the agent, tools, agent blocks in order, the run
ends `SUCCEEDED`, and concatenating the agent's `stream_token` payloads
reconstructs the model's full text. -/
theorem stream_token_order {σ υ : Type} (g : Graph σ υ)
    (mergeFn : σ → υ → σ) (ib ia : List String) (fuel : Nat)
    (thread : List (Checkpoint σ)) (n : String) :
    (runLoop g mergeFn ib ia fuel thread [] []).2.2.1 =
      ((runLoop g mergeFn ib ia fuel thread [] []).2.1).flatMap
        (fun r => nodeBlock r.1 r.2) ∧
    eventsOf n ((runLoop g mergeFn ib ia fuel thread [] []).2.2.1) =
      (((runLoop g mergeFn ib ia fuel thread [] []).2.1).filter
        (fun r => r.1 = n)).flatMap (fun r => nodeBlock r.1 r.2) ∧
    runLoop workflow add_messages [] [] 10
        [initialCheckpoint workflow [userMsg]] [] [] =
      ([initialCheckpoint workflow [userMsg],
        ⟨1, [userMsg, aiToolCallMsg], ["tools"], some "agent"⟩,
        ⟨2, [userMsg, aiToolCallMsg, toolResultMsg], ["agent"],
          some "tools"⟩,
        ⟨3, [userMsg, aiToolCallMsg, toolResultMsg, aiFinalMsg], [ENDMark],
          some "agent"⟩],
       [("agent", []), ("tools", []), ("agent", weatherTokens)],
       nodeBlock "agent" [] ++ nodeBlock "tools" [] ++
         nodeBlock "agent" weatherTokens,
       RunStatus.SUCCEEDED) ∧
    String.join (tokenPayloads "agent"
        (runLoop workflow add_messages [] [] 10
          [initialCheckpoint workflow [userMsg]] [] []).2.2.1) =
      "The weather in San Francisco is currently cloudy with a chance of hail." := by
  have h1 := runLoop_events_blocks g mergeFn ib ia fuel thread [] [] rfl
  refine ⟨h1, ?_, rfl, rfl⟩
  rw [h1, eventsOf_trace_blocks]
